import Mathlib

/-!
Verification development for the agent orchestration core of the
bedrock-claude-chat repository.  The Python sources under
`backend/app` (agents/agent.py, agents/tools/agent_tool.py, stream.py,
bedrock.py, usecases/chat.py) are shallowly embedded below: Python
exceptions become `Except`, dictionaries become association lists,
floats used for prices become rationals, and the two external
collaborators (the Bedrock converse call and the conversation store)
become explicit inputs and outputs.  Auxiliary record fields never read
by the embedded logic (timestamps, feedback, used_chunks, model name on
a message) are omitted.
-/

deriving instance DecidableEq for Except

namespace BedrockChat

/-- An opaque JSON object (`dict[str, JsonValue]` in the source): keys paired
with serialized values.  The embedded logic never inspects the payload. -/
abbrev JsonDict := List (String × String)

/-- `ToolResultContentBlockOutputTypeDef`: one content block of a tool result,
as fed back to the converse API (`{"text": ...}`, `{"json": ...}`, or the
serialization of a structured result object). -/
inductive ToolResultBlock where
  | text (s : String)
  | json (d : JsonDict)
  | image (format : String) (source : String)
  | document (format : String) (name : String) (source : String)
deriving DecidableEq

/-- Status literal `"success" | "error"` of a tool result. -/
inductive ToolResultStatus where
  | success
  | error
deriving DecidableEq

/-- Modelled from the spec: `ToolResultModel`
(app/repositories/models/conversation.py is not under src/) is a structured
tool result object whose method `to_content_for_converse` produces its own
converse serialization; the serialization is carried as a field. -/
structure ToolResultModel where
  serialized : ToolResultBlock
deriving DecidableEq

def ToolResultModel.to_content_for_converse (m : ToolResultModel) : ToolResultBlock :=
  m.serialized

/-- One element of a list returned by a tool function
(`str | dict | ToolResultModel`). -/
inductive AgentResultItem where
  | str (s : String)
  | dict (d : JsonDict)
  | toolResult (m : ToolResultModel)
deriving DecidableEq

/-- `AgentResultType = str | dict | ToolResultModel | list[...]`: the return
type of a tool function (agents/tools/agent_tool.py). -/
inductive AgentResult where
  | str (s : String)
  | dict (d : JsonDict)
  | toolResult (m : ToolResultModel)
  | list (items : List AgentResultItem)
deriving DecidableEq

/-- `ToolUseContentModelBody` and `ToolUseBlockOutputTypeDef`: a tool-use
request (id, tool name, input payload). -/
structure ToolUseContentModelBody where
  tool_use_id : String
  name : String
  input : JsonDict
deriving DecidableEq

/-- `ToolResultContentModelBody`: a tool result as stored in a message. -/
structure ToolResultContentModelBody where
  tool_use_id : String
  content : List ToolResultBlock
  status : ToolResultStatus
deriving DecidableEq

/-- `ContentModel`: the tagged union of message content kinds. -/
inductive ContentModel where
  | text (body : String)
  | image (media_type : String) (body : String)
  | attachment (file_name : String) (body : String)
  | toolUse (body : ToolUseContentModelBody)
  | toolResult (body : ToolResultContentModelBody)
deriving DecidableEq

/-- Modelled from the spec: `AgentMessageModel`
(app/repositories/models/conversation.py is not under src/) is a message as
sent to the model provider: a role and a content list. -/
structure AgentMessageModel where
  role : String
  content : List ContentModel
deriving DecidableEq

/-- `MessageModel`: a node of the conversation tree.  Fields never read by
the embedded logic (model, create_time, feedback, used_chunks) are omitted. -/
structure MessageModel where
  role : String
  content : List ContentModel
  parent : Option String
  children : List String
  thinking_log : Option (List AgentMessageModel)
deriving DecidableEq

/-- Modelled from the spec: `AgentMessageModel.from_message_model` projects a
tree node to the provider-facing message (role and content). -/
def AgentMessageModel.from_message_model (m : MessageModel) : AgentMessageModel :=
  { role := m.role, content := m.content }

/-- `ConverseApiToolResult` (bedrock.py): a tool result block as returned to
the converse API. -/
structure ConverseApiToolResult where
  toolUseId : String
  content : List ToolResultBlock
  status : ToolResultStatus
deriving DecidableEq

def ToolResultContentModelBody.from_tool_result (r : ConverseApiToolResult) :
    ToolResultContentModelBody :=
  { tool_use_id := r.toolUseId, content := r.content, status := r.status }

/-- `RunResult` (agents/tools/agent_tool.py). -/
structure RunResult where
  tool_use_id : String
  succeeded : Bool
  body : List ToolResultBlock
deriving DecidableEq

/-- `AgentTool` (agents/tools/agent_tool.py).  `args_schema` is pydantic
validation of the raw input (an exception becomes `Except.error`); `function`
is the underlying tool function closed over its bot/model context (an
exception again becomes `Except.error`). -/
structure AgentTool (T : Type) where
  name : String
  description : String
  args_schema : JsonDict → Except String T
  function : T → Except String AgentResult

/-- Per-element coercion used for list results in `AgentTool.run`:
string to text block, mapping to json block, structured object to its own
serialization. -/
def normalizeItem : AgentResultItem → ToolResultBlock
  | .str s => .text s
  | .dict d => .json d
  | .toolResult m => m.to_content_for_converse

/-- Normalization of a successful tool return value into content blocks,
exactly the branch structure of `AgentTool.run`. -/
def normalizeResult : AgentResult → List ToolResultBlock
  | .str s => [.text s]
  | .dict d => [.json d]
  | .list items => items.map normalizeItem
  | .toolResult m => [m.to_content_for_converse]

/-- `AgentTool.run` (agents/tools/agent_tool.py lines 58-106): validate the
input, run the function, normalize the value; any exception of either step is
caught and becomes a failed result whose body is one text block holding the
error string. -/
def AgentTool.run {T : Type} (tool : AgentTool T) (tool_use_id : String)
    (input : JsonDict) : RunResult :=
  match tool.args_schema input with
  | .error e => { tool_use_id := tool_use_id, succeeded := false, body := [.text e] }
  | .ok arg =>
    match tool.function arg with
    | .error e => { tool_use_id := tool_use_id, succeeded := false, body := [.text e] }
    | .ok res => { tool_use_id := tool_use_id, succeeded := true, body := normalizeResult res }

/-- A tool with its validated-argument type hidden, as stored in the
name-keyed tool dictionaries of agent.py and chat.py. -/
def ToolSigma := Σ T : Type, AgentTool T

/-- Association-list lookup with string keys (Python dict access). -/
def assocLookup {β : Type u} (l : List (String × β)) (k : String) : Option β :=
  match l with
  | [] => none
  | e :: rest => if e.1 = k then some e.2 else assocLookup rest k

abbrev ToolDict := List (String × ToolSigma)

/-- Pricing entry: dollars per 1000 input tokens and per 1000 output
tokens. -/
structure PricingEntry where
  input : ℚ
  output : ℚ
deriving DecidableEq

/-- Modelled from the spec: `BEDROCK_PRICING` (app/config.py is not under
src/) keyed by region then model, with a `default` region containing every
model.  bedrock.py falls back field-wise; the table is modelled entry-wise. -/
structure PricingTable where
  regional : String → String → Option PricingEntry
  default : String → PricingEntry

/-- `calculate_price` (bedrock.py lines 146-163). -/
def calculate_price (table : PricingTable) (model : String)
    (input_tokens output_tokens : Nat) (region : String) : ℚ :=
  let entry := (table.regional region model).getD (table.default model)
  entry.input * input_tokens / 1000 + entry.output * output_tokens / 1000

/-- Python `str.rstrip()`: drop trailing whitespace. -/
def pyRstrip (s : String) : String :=
  String.mk (s.data.reverse.dropWhile Char.isWhitespace).reverse

/-- One event of the converse stream (stream.py consumes events holding a
`contentBlockDelta`, `messageStop` or `metadata` key; anything else is an
event of another kind). -/
inductive StreamEvent where
  | contentBlockDelta (text : String)
  | messageStop (stopReason : String)
  | metadata (inputTokens outputTokens : Nat)
  | other
deriving DecidableEq

/-- Mutable state of the event loop in `ConverseApiStreamHandler.run`,
together with the log of strings passed to the `on_stream` sink. -/
structure StreamAcc where
  completions : List String
  stop_reason : String
  input_token_count : Nat
  output_token_count : Nat
  sink : List String
deriving DecidableEq

def initialStreamAcc : StreamAcc :=
  { completions := [], stop_reason := "", input_token_count := 0,
    output_token_count := 0, sink := [] }

/-- One iteration of the event loop of `ConverseApiStreamHandler.run`
(stream.py lines 67-85): a delta is buffered and forwarded to the sink, a
message stop records the stop reason, metadata records the usage, and any
other event falls through all three branches. -/
def streamStep (acc : StreamAcc) (e : StreamEvent) : StreamAcc :=
  match e with
  | .contentBlockDelta text =>
    { acc with completions := acc.completions ++ [text], sink := acc.sink ++ [text] }
  | .messageStop sr => { acc with stop_reason := sr }
  | .metadata it ot => { acc with input_token_count := it, output_token_count := ot }
  | .other => acc

/-- The value returned by `ConverseApiStreamHandler.run`, plus the log of
`on_stream` calls made while consuming the events. -/
structure StreamOutcome where
  full_token : String
  stop_reason : String
  input_token_count : Nat
  output_token_count : Nat
  price : ℚ
  sink : List String
deriving DecidableEq

/-- `ConverseApiStreamHandler.run` (stream.py lines 53-99) on a finite event
sequence: fold the event loop, then assemble the result with the price
computed by `calculate_price` and the buffered text concatenated and
right-stripped. -/
def ConverseApiStreamHandler.run (table : PricingTable) (model : String)
    (region : String) (events : List StreamEvent) : StreamOutcome :=
  let acc := events.foldl streamStep initialStreamAcc
  { full_token := pyRstrip (String.join acc.completions),
    stop_reason := acc.stop_reason,
    input_token_count := acc.input_token_count,
    output_token_count := acc.output_token_count,
    price := calculate_price table model acc.input_token_count acc.output_token_count region,
    sink := acc.sink }

/-- The delta texts of an event sequence, in order. -/
def deltaTexts (events : List StreamEvent) : List String :=
  events.filterMap fun e =>
    match e with
    | .contentBlockDelta t => some t
    | _ => none

/-- The stop reasons of the messageStop events of a sequence, in order. -/
def stopReasons (events : List StreamEvent) : List String :=
  events.filterMap fun e =>
    match e with
    | .messageStop sr => some sr
    | _ => none

/-- The usage pairs of the metadata events of a sequence, in order. -/
def metadataUsages (events : List StreamEvent) : List (Nat × Nat) :=
  events.filterMap fun e =>
    match e with
    | .metadata it ot => some (it, ot)
    | _ => none

def StreamEvent.isOther : StreamEvent → Bool
  | .other => true
  | _ => false

/-! ## The conversation message map and its operations (usecases/chat.py) -/

/-- `conversation.message_map`: a Python dict from message id to node,
embedded as an association list with distinct keys in insertion order. -/
abbrev MessageMap := List (String × MessageModel)

/-- Python dict assignment `map[k] = v`: update in place when the key is
present, append otherwise. -/
def mapInsert (m : MessageMap) (k : String) (v : MessageModel) : MessageMap :=
  if (assocLookup m k).isSome then
    m.map fun e => if e.1 = k then (e.1, v) else e
  else
    m ++ [(k, v)]

/-- In-place mutation of the node stored at a key (such as
`map[k].children.append(...)`).  Python raises KeyError when the key is
absent; theorems using this carry the presence hypothesis instead. -/
def mapAdjust (m : MessageMap) (k : String) (f : MessageModel → MessageModel) :
    MessageMap :=
  m.map fun e => if e.1 = k then (e.1, f e.2) else e

/-- Python `del map[k]`: drop the entry stored under the key (keys are
unique, so dropping every match is the same operation). -/
def mapErase (m : MessageMap) (k : String) : MessageMap :=
  match m with
  | [] => []
  | e :: rest => if e.1 = k then mapErase rest k else e :: mapErase rest k

/-- True when a thinking-log entry holds tool-use or tool-result content
(the filter of `trace_to_root`). -/
def keepInLog (m : AgentMessageModel) : Bool :=
  m.content.any fun c =>
    match c with
    | .toolUse _ => true
    | .toolResult _ => true
    | _ => false

/-- The thinking log of a node, empty when absent (Python truthiness makes
`None` and `[]` behave alike here). -/
def logOf (n : MessageModel) : List AgentMessageModel :=
  n.thinking_log.getD []

/-- The node id the walk of `trace_to_root` starts from: `None`, the empty
string and `"system"` resolve to `"instruction"` when the map has one and to
`"system"` otherwise (chat.py lines 208-209). -/
def resolveNodeId (nodeId : Option String) (map : MessageMap) : String :=
  let redirect := if (assocLookup map "instruction").isSome then "instruction" else "system"
  match nodeId with
  | none => redirect
  | some s => if s = "" ∨ s = "system" then redirect else s

/-- The while loop of `trace_to_root` (chat.py lines 212-228), leaf to root,
with fuel: append the node, then the reversed thinking log filtered to
tool-use/tool-result entries, then follow the parent link. -/
def traceFrom (map : MessageMap) : Nat → String → List AgentMessageModel
  | 0, _ => []
  | fuel + 1, nodeId =>
    match assocLookup map nodeId with
    | none => []
    | some node =>
      let seg := AgentMessageModel.from_message_model node ::
        ((logOf node).reverse.filter keepInLog)
      match node.parent with
      | none => seg
      | some pid => seg ++ traceFrom map fuel pid

/-- `trace_to_root` (chat.py lines 203-230): walk parent links from the
resolved start node, then reverse the accumulated list so it reads root to
leaf.  The fuel bounds the walk by the map size; an acyclic map never
exhausts it. -/
def trace_to_root (nodeId : Option String) (map : MessageMap) :
    List AgentMessageModel :=
  (traceFrom map (map.length + 1) (resolveNodeId nodeId map)).reverse

/-- `ConversationModel`: the fields mutated by the embedded turn logic
(id, title, create_time and bot_id are never read by it and are omitted). -/
structure Conversation where
  message_map : MessageMap
  last_message_id : String
  total_price : ℚ
  should_continue : Bool
deriving DecidableEq

/-- The dummy system root node created for a new conversation
(chat.py lines 88-106). -/
def systemRoot : MessageModel :=
  { role := "system", content := [.text ""], parent := none, children := [],
    thinking_log := none }

/-- The initial message map of a new conversation (chat.py lines 88-129): a
bare system root, or a system root with an instruction child when a bot is
attached. -/
def initialMessageMap (instruction : Option String) : MessageMap :=
  match instruction with
  | none => [("system", systemRoot)]
  | some instr =>
    [("system", { systemRoot with children := ["instruction"] }),
     ("instruction",
      { role := "instruction", content := [.text instr], parent := some "system",
        children := [], thinking_log := none })]

/-- Appending the user chat input to the conversation
(chat.py lines 180-191): store the new message under `message_id` with its
parent set, and append `message_id` to the children of the parent. -/
def appendUserMessage (conv : Conversation) (parent_id message_id : String)
    (new_message : MessageModel) : Conversation :=
  let msg := { new_message with parent := some parent_id }
  { conv with
    message_map :=
      mapAdjust (mapInsert conv.message_map message_id msg) parent_id
        fun p => { p with children := p.children ++ [message_id] } }

/-- The terminal branch of the chat loop (chat.py lines 392-419), entered
when the stop reason is not `tool_use`: set the parent and thinking log of
the final message, then either overwrite the previous assistant leaf in
place (continuation without a tool round), or delete the previous leaf first
(continuation with a tool round) and attach the message under a fresh id.
Returns the conversation, the id of the assistant message and the stored
message. -/
def finalizeTurn (conv : Conversation) (user_msg_id : String)
    (message : MessageModel) (thinking_log : List AgentMessageModel)
    (continue_generate : Bool) (new_id : String) :
    Conversation × String × MessageModel :=
  let message :=
    { message with
      parent := some user_msg_id,
      thinking_log := if thinking_log.length > 0 then some thinking_log
                      else message.thinking_log }
  if continue_generate ∧ thinking_log = [] then
    ({ conv with
       message_map := mapInsert conv.message_map conv.last_message_id message },
     conv.last_message_id, message)
  else
    let conv :=
      if continue_generate then
        let old := conv.last_message_id
        { conv with
          message_map :=
            mapErase
              (mapAdjust conv.message_map user_msg_id
                fun p => { p with children := p.children.erase old })
              old }
      else conv
    let mm := mapInsert conv.message_map new_id message
    let mm := mapAdjust mm user_msg_id
      fun p => { p with children := p.children ++ [new_id] }
    ({ conv with message_map := mm, last_message_id := new_id }, new_id, message)

/-! ## The tool round of the chat loop (chat.py lines 433-467) -/

/-- The tool invocations of one tool-use round of `chat` (lines 439-455):
for each tool-use content, look the tool up by name (a missing name is a
KeyError aborting the turn), run it, and collect one result per request with
the returned tool-use id and a status derived from `succeeded`. -/
def runToolsChat (tools : ToolDict) :
    List ToolUseContentModelBody → Except String (List ConverseApiToolResult)
  | [] => .ok []
  | content :: rest =>
    match assocLookup tools content.name with
    | none => .error ("KeyError: " ++ content.name)
    | some tool =>
      let run_result := tool.2.run content.tool_use_id content.input
      let tool_result : ConverseApiToolResult :=
        { toolUseId := run_result.tool_use_id,
          content := run_result.body,
          status := if run_result.succeeded then .success else .error }
      (runToolsChat tools rest).map fun rs => tool_result :: rs

/-- The tool-use contents of a message (chat.py lines 433-437). -/
def toolUseContents (m : AgentMessageModel) : List ToolUseContentModelBody :=
  m.content.filterMap fun c =>
    match c with
    | .toolUse body => some body
    | _ => none

/-- The synthetic user message carrying the tool results of a round
(chat.py lines 457-466). -/
def toolResultMessage (tool_results : List ConverseApiToolResult) :
    AgentMessageModel :=
  { role := "user",
    content := tool_results.map fun r =>
      .toolResult (ToolResultContentModelBody.from_tool_result r) }

/-- The data produced by one `stream_handler.run` call inside `chat`
(the messages-based stream handler itself is outside src/; `chat` only reads
the message, the stop reason and the price of its result). -/
structure ChatStreamResult where
  message : MessageModel
  stop_reason : String
  price : ℚ
deriving DecidableEq

/-- The loop state of `chat` (chat.py lines 316-354). -/
structure ChatState where
  conversation : Conversation
  messages : List AgentMessageModel
  thinking_log : List AgentMessageModel
  continue_generate : Bool
  user_msg_id : String
deriving DecidableEq

/-- The `while True` loop of `chat` (chat.py lines 355-471), driven by the
list of stream results it consumes, followed by the single
`store_conversation` call.  Two continuation flags exist in the source and
are kept apart here: the immutable `chat_input.continue_generate`
(`chat_input_continue`, tested by the terminal branch at line 398) and the
loop-local `continue_generate` variable (`st.continue_generate`, which
governs the `messages[-1]` replacement at lines 422-426 and is reset after
the first tool round).  The first component of the result is the list of
conversations passed to the store (empty when the turn aborts with an
exception); the second is the return value of `chat`.  The RAG chunk
bookkeeping (lines 364-387) applies only to non-agent knowledge bots and is
outside the embedded scope. -/
def chatLoop (tools : ToolDict) (new_id : String) (chat_input_continue : Bool) :
    List ChatStreamResult → ChatState →
    List Conversation × Except String (Conversation × MessageModel)
  | [], _ => ([], .error "stream exhausted")
  | result :: rest, st =>
    let conv :=
      { st.conversation with
        total_price := st.conversation.total_price + result.price,
        should_continue := result.stop_reason = "max_tokens" }
    if result.stop_reason ≠ "tool_use" then
      let fin := finalizeTurn conv st.user_msg_id result.message st.thinking_log
        chat_input_continue new_id
      ([fin.1], .ok (fin.1, fin.2.2))
    else
      let tool_use_message := AgentMessageModel.from_message_model result.message
      let messages :=
        if st.continue_generate then st.messages.dropLast ++ [tool_use_message]
        else st.messages ++ [tool_use_message]
      let continue_generate := if st.continue_generate then false else st.continue_generate
      let thinking_log := st.thinking_log ++ [tool_use_message]
      match runToolsChat tools (toolUseContents tool_use_message) with
      | .error e => ([], .error e)
      | .ok tool_results =>
        let trm := toolResultMessage tool_results
        chatLoop tools new_id chat_input_continue rest
          { conversation := conv,
            messages := messages ++ [trm],
            thinking_log := thinking_log ++ [trm],
            continue_generate := continue_generate,
            user_msg_id := st.user_msg_id }

/-! ## AgentRunner (agents/agent.py) -/

/-- One content block of a converse API response message.  A response whose
output carries no message is modelled by an empty content list (both fall
through every key test of agent.py). -/
inductive ResponseBlock where
  | text (s : String)
  | toolUse (tu : ToolUseContentModelBody)
  | other
deriving DecidableEq

structure Usage where
  inputTokens : Nat
  outputTokens : Nat
deriving DecidableEq

/-- `ConverseResponseTypeDef` as read by agent.py: the content of the output
message, the stop reason and the usage. -/
structure ConverseResponse where
  content : List ResponseBlock
  stopReason : String
  usage : Usage
deriving DecidableEq

/-- The loop guard of `AgentRunner.run` (agent.py lines 69-73): the last
content block of the response message carries a `toolUse` key. -/
def lastBlockIsToolUse (r : ConverseResponse) : Bool :=
  match r.content.getLast? with
  | some (.toolUse _) => true
  | _ => false

/-- The tool-use blocks of a response (agent.py lines 74-81). -/
def responseToolUses (r : ConverseResponse) : List ToolUseContentModelBody :=
  r.content.filterMap fun c =>
    match c with
    | .toolUse tu => some tu
    | _ => none

/-- `full_token` of the final response (agent.py lines 120-124): the text of
the first content block when the message is present, non-empty and starts
with a text block, and the empty string otherwise. -/
def responseFirstText (r : ConverseResponse) : String :=
  match r.content with
  | .text s :: _ => s
  | _ => ""

/-- `AgentRunner._invoke_tools` (agent.py lines 197-219): for each requested
tool use, in order, resolve the tool by name (an unknown name raises
`ValueError`, line 218), validate the input outside any exception handler
(pydantic construction at line 205, so a validation error propagates), then
call `tool.run(args)` with one positional argument (line 206).  Against the
two-argument signature `AgentTool.run(tool_use_id, input)` of
agents/tools/agent_tool.py — the class agent.py imports — that call itself
raises an uncaught `TypeError`, so no invocation of a resolvable,
validly-called tool completes; the result-collecting code below it
(lines 207-216) is unreachable. -/
def _invoke_tools (tools : ToolDict) :
    List ToolUseContentModelBody → Except String (List ConverseApiToolResult)
  | [] => .ok []
  | tool_use :: _rest =>
    match assocLookup tools tool_use.name with
    | none => .error ("Tool " ++ tool_use.name ++ " not found.")
    | some tool =>
      match tool.2.args_schema tool_use.input with
      | .error e => .error e
      | .ok _ =>
        .error "TypeError: run() missing 1 required positional argument: input"

/-- `OnStopInput` as assembled by `AgentRunner.run` (agent.py lines 32-38,
118-131). -/
structure AgentOnStopInput where
  thinking_conversation : List AgentMessageModel
  full_token : String
  stop_reason : String
  input_token_count : Nat
  output_token_count : Nat
  price : ℚ
deriving DecidableEq

/-- The assistant message recording the tool-use blocks of a response
(agent.py lines 83-92). -/
def toolUseAssistantMessage (tool_uses : List ToolUseContentModelBody) :
    AgentMessageModel :=
  { role := "assistant", content := tool_uses.map fun tu => .toolUse tu }

/-- The `while` loop of `AgentRunner.run` (agent.py lines 69-132),
parameterized by the remaining converse responses: while the current
response requests tool use, append the synthetic assistant and user
messages, invoke the tools, consume the next response, and add only that
next response usage to the running totals; on any other stop reason
assemble the final `OnStopInput` from the totals. -/
def agentRunAux (tools : ToolDict) (table : PricingTable) (model region : String) :
    List ConverseResponse → ConverseResponse → List AgentMessageModel →
    Nat → Nat → Except String AgentOnStopInput
  | rest, response, conv, total_input, total_output =>
    if lastBlockIsToolUse response then
      let tool_uses := responseToolUses response
      let conv := conv ++ [toolUseAssistantMessage tool_uses]
      match _invoke_tools tools tool_uses with
      | .error e => .error e
      | .ok tool_results =>
        let conv := conv ++ [toolResultMessage tool_results]
        match rest with
        | [] => .error "stream exhausted"
        | next :: rest2 =>
          agentRunAux tools table model region rest2 next conv
            (total_input + next.usage.inputTokens)
            (total_output + next.usage.outputTokens)
    else
      .ok { thinking_conversation := conv,
            full_token := responseFirstText response,
            stop_reason := response.stopReason,
            input_token_count := total_input,
            output_token_count := total_output,
            price := calculate_price table model total_input total_output region }

/-- `AgentRunner.run` (agent.py lines 60-132): project the input messages to
conversation roles, make the first converse call (consuming the first
response) with the token totals still at their initial zero, then run the
tool loop.  Note the totals are incremented only inside the loop, right
after each subsequent converse call. -/
def AgentRunner.run (tools : ToolDict) (table : PricingTable)
    (model region : String) (messages : List MessageModel)
    (responses : List ConverseResponse) : Except String AgentOnStopInput :=
  let conv := (messages.filter fun m => m.role = "user" ∨ m.role = "assistant").map
    AgentMessageModel.from_message_model
  match responses with
  | [] => .error "stream exhausted"
  | first :: rest => agentRunAux tools table model region rest first conv 0 0

/-! ## Theorems: the stream handler (claims C8 and C10) -/

/-- The last element of a list, with a default: the value a repeated
assignment in a loop holds after the loop. -/
def lastOr {α : Type} (l : List α) (d : α) : α :=
  match l with
  | [] => d
  | x :: rest => lastOr rest x

theorem foldl_streamStep_completions (events : List StreamEvent) (acc : StreamAcc) :
    (events.foldl streamStep acc).completions = acc.completions ++ deltaTexts events := by
  induction events generalizing acc with
  | nil => simp [deltaTexts]
  | cons e rest ih =>
    cases e <;> simp [streamStep, deltaTexts, ih, List.filterMap_cons]

theorem foldl_streamStep_sink (events : List StreamEvent) (acc : StreamAcc) :
    (events.foldl streamStep acc).sink = acc.sink ++ deltaTexts events := by
  induction events generalizing acc with
  | nil => simp [deltaTexts]
  | cons e rest ih =>
    cases e <;> simp [streamStep, deltaTexts, ih, List.filterMap_cons]

theorem foldl_streamStep_stop (events : List StreamEvent) (acc : StreamAcc) :
    (events.foldl streamStep acc).stop_reason =
      lastOr (stopReasons events) acc.stop_reason := by
  induction events generalizing acc with
  | nil => simp [stopReasons, lastOr]
  | cons e rest ih =>
    cases e <;> simp [streamStep, stopReasons, List.filterMap_cons, lastOr] <;>
      simp [stopReasons] at ih ⊢ <;> simp [ih, streamStep]

theorem foldl_streamStep_usage (events : List StreamEvent) (acc : StreamAcc) :
    ((events.foldl streamStep acc).input_token_count,
     (events.foldl streamStep acc).output_token_count) =
      lastOr (metadataUsages events)
        (acc.input_token_count, acc.output_token_count) := by
  induction events generalizing acc with
  | nil => simp [metadataUsages, lastOr]
  | cons e rest ih =>
    cases e <;> simp [streamStep, metadataUsages, List.filterMap_cons, lastOr] <;>
      simp [metadataUsages] at ih ⊢ <;> simp [ih, streamStep]

theorem foldl_streamStep_filter_other (events : List StreamEvent) (acc : StreamAcc) :
    (events.filter fun e => !e.isOther).foldl streamStep acc =
      events.foldl streamStep acc := by
  induction events generalizing acc with
  | nil => rfl
  | cons e rest ih =>
    cases e <;> simpa [List.filter_cons, StreamEvent.isOther] using ih _

/-- Claim C8: on any finite event sequence with one messageStop and one
metadata event, `ConverseApiStreamHandler.run` returns the in-order
concatenation of the delta texts with trailing whitespace trimmed, the
stop reason of the messageStop event, the token counts of the metadata
event, and the price given by `calculate_price` on those counts; moreover
after any prefix of the events the strings passed to the `on_stream` sink
are exactly the delta texts of that prefix, in order. -/
theorem converse_stream_run_reassembles (table : PricingTable)
    (model region : String) (events : List StreamEvent) (sr : String)
    (it ot : Nat) (hstop : stopReasons events = [sr])
    (hmeta : metadataUsages events = [(it, ot)]) :
    ConverseApiStreamHandler.run table model region events =
      { full_token := pyRstrip (String.join (deltaTexts events)),
        stop_reason := sr,
        input_token_count := it,
        output_token_count := ot,
        price := calculate_price table model it ot region,
        sink := deltaTexts events } ∧
    ∀ n : Nat, ((events.take n).foldl streamStep initialStreamAcc).sink =
      deltaTexts (events.take n) := by
  have husage := foldl_streamStep_usage events initialStreamAcc
  rw [hmeta] at husage
  have h1 : (events.foldl streamStep initialStreamAcc).input_token_count = it := by
    have := congrArg Prod.fst husage
    simpa [lastOr] using this
  have h2 : (events.foldl streamStep initialStreamAcc).output_token_count = ot := by
    have := congrArg Prod.snd husage
    simpa [lastOr] using this
  constructor
  · simp only [ConverseApiStreamHandler.run]
    rw [foldl_streamStep_completions, foldl_streamStep_sink, foldl_streamStep_stop,
      h1, h2, hstop]
    simp [initialStreamAcc, lastOr]
  · intro n
    rw [foldl_streamStep_sink]
    simp [initialStreamAcc]

/-- A concrete pricing table used by witnesses: one model priced in the
default region only. -/
def demoTable : PricingTable :=
  { regional := fun _ _ => none,
    default := fun _ => { input := 3 / 1000, output := 15 / 1000 } }

def demoEvents : List StreamEvent :=
  [.contentBlockDelta "Hel", .other, .contentBlockDelta "lo  ",
   .messageStop "end_turn", .metadata 5 7]

theorem converse_stream_run_reassembles_witness :
    stopReasons demoEvents = ["end_turn"] ∧
    metadataUsages demoEvents = [(5, 7)] ∧
    ConverseApiStreamHandler.run demoTable "claude-v3-sonnet" "us-east-1" demoEvents =
      { full_token := pyRstrip (String.join (deltaTexts demoEvents)),
        stop_reason := "end_turn",
        input_token_count := 5,
        output_token_count := 7,
        price := calculate_price demoTable "claude-v3-sonnet" 5 7 "us-east-1",
        sink := deltaTexts demoEvents } :=
  ⟨by decide, by decide,
    (converse_stream_run_reassembles demoTable "claude-v3-sonnet" "us-east-1"
      demoEvents "end_turn" 5 7 (by decide) (by decide)).1⟩

/-- Claim C10: without a metadata event the handler returns zero token
counts and the price of zero tokens; without a messageStop event the stop
reason is the empty string; events of an unrecognized kind are ignored (the
run on the sequence with them removed is the same run); the handler always
completes with a result. -/
theorem converse_stream_run_defaults (table : PricingTable)
    (model region : String) (events : List StreamEvent) :
    (metadataUsages events = [] →
      (ConverseApiStreamHandler.run table model region events).input_token_count = 0 ∧
      (ConverseApiStreamHandler.run table model region events).output_token_count = 0 ∧
      (ConverseApiStreamHandler.run table model region events).price =
        calculate_price table model 0 0 region) ∧
    (stopReasons events = [] →
      (ConverseApiStreamHandler.run table model region events).stop_reason = "") ∧
    ConverseApiStreamHandler.run table model region
        (events.filter fun e => !e.isOther) =
      ConverseApiStreamHandler.run table model region events := by
  refine ⟨?_, ?_, ?_⟩
  · intro hmeta
    have husage := foldl_streamStep_usage events initialStreamAcc
    rw [hmeta] at husage
    have h1 : (events.foldl streamStep initialStreamAcc).input_token_count = 0 := by
      have := congrArg Prod.fst husage
      simpa [lastOr, initialStreamAcc] using this
    have h2 : (events.foldl streamStep initialStreamAcc).output_token_count = 0 := by
      have := congrArg Prod.snd husage
      simpa [lastOr, initialStreamAcc] using this
    simp only [ConverseApiStreamHandler.run]
    rw [h1, h2]
    exact ⟨rfl, rfl, rfl⟩
  · intro hstop
    simp only [ConverseApiStreamHandler.run]
    rw [foldl_streamStep_stop, hstop]
    simp [lastOr, initialStreamAcc]
  · simp only [ConverseApiStreamHandler.run]
    rw [foldl_streamStep_filter_other]

def demoEventsNoMeta : List StreamEvent :=
  [.contentBlockDelta "a", .other]

theorem converse_stream_run_defaults_witness :
    metadataUsages demoEventsNoMeta = [] ∧
    stopReasons demoEventsNoMeta = [] ∧
    (ConverseApiStreamHandler.run demoTable "claude-v3-haiku" "us-east-1"
        demoEventsNoMeta).input_token_count = 0 ∧
    (ConverseApiStreamHandler.run demoTable "claude-v3-haiku" "us-east-1"
        demoEventsNoMeta).stop_reason = "" ∧
    ConverseApiStreamHandler.run demoTable "claude-v3-haiku" "us-east-1"
        (demoEventsNoMeta.filter fun e => !e.isOther) =
      ConverseApiStreamHandler.run demoTable "claude-v3-haiku" "us-east-1"
        demoEventsNoMeta :=
  ⟨by decide, by decide,
    ((converse_stream_run_defaults demoTable "claude-v3-haiku" "us-east-1"
      demoEventsNoMeta).1 (by decide)).1,
    (converse_stream_run_defaults demoTable "claude-v3-haiku" "us-east-1"
      demoEventsNoMeta).2.1 (by decide),
    (converse_stream_run_defaults demoTable "claude-v3-haiku" "us-east-1"
      demoEventsNoMeta).2.2⟩

/-! ## Theorems: the tool contract (claims C4, C5, C6, C7) -/

theorem AgentTool.run_tool_use_id {T : Type} (tool : AgentTool T)
    (id : String) (input : JsonDict) : (tool.run id input).tool_use_id = id := by
  cases hv : tool.args_schema input with
  | error e => simp [AgentTool.run, hv]
  | ok a =>
    cases hf : tool.function a with
    | error e => simp [AgentTool.run, hv, hf]
    | ok res => simp [AgentTool.run, hv, hf]

/-- The tool-use ids carried by the toolResult contents of a message. -/
def toolResultIds (m : AgentMessageModel) : List String :=
  m.content.filterMap fun c =>
    match c with
    | .toolResult b => some b.tool_use_id
    | _ => none

theorem toolResultIds_toolResultMessage (rs : List ConverseApiToolResult) :
    toolResultIds (toolResultMessage rs) = rs.map ConverseApiToolResult.toolUseId := by
  induction rs with
  | nil => rfl
  | cons r rest ih =>
    simp [toolResultMessage, toolResultIds, List.filterMap_cons,
      ToolResultContentModelBody.from_tool_result] at ih ⊢
    exact ih

theorem runToolsChat_ok (tools : ToolDict)
    (contents : List ToolUseContentModelBody)
    (h : ∀ c ∈ contents, (assocLookup tools c.name).isSome) :
    ∃ rs, runToolsChat tools contents = .ok rs ∧
      rs.map ConverseApiToolResult.toolUseId =
        contents.map ToolUseContentModelBody.tool_use_id := by
  induction contents with
  | nil => exact ⟨[], rfl, rfl⟩
  | cons c rest ih =>
    have hc := h c (List.mem_cons_self c rest)
    obtain ⟨tool, htool⟩ := Option.isSome_iff_exists.mp hc
    obtain ⟨rs, hrs, hids⟩ := ih fun x hx => h x (List.mem_cons_of_mem c hx)
    refine ⟨{ toolUseId := (tool.2.run c.tool_use_id c.input).tool_use_id,
              content := (tool.2.run c.tool_use_id c.input).body,
              status := if (tool.2.run c.tool_use_id c.input).succeeded then .success
                        else .error } :: rs, ?_, ?_⟩
    · simp only [runToolsChat, htool, hrs, Except.map]
    · simp [hids, AgentTool.run_tool_use_id]

theorem runToolsChat_missing (tools : ToolDict)
    (contents : List ToolUseContentModelBody)
    (h : ∃ c ∈ contents, assocLookup tools c.name = none) :
    ∃ e, runToolsChat tools contents = .error e := by
  induction contents with
  | nil => simp at h
  | cons c rest ih =>
    by_cases hc : assocLookup tools c.name = none
    · exact ⟨"KeyError: " ++ c.name, by simp only [runToolsChat, hc]⟩
    · obtain ⟨tool, htool⟩ :=
        Option.isSome_iff_exists.mp (Option.ne_none_iff_isSome.mp hc)
      obtain ⟨x, hx, hxnone⟩ := h
      rcases List.mem_cons.mp hx with rfl | hxrest
      · exact absurd hxnone hc
      · obtain ⟨e, he⟩ := ih ⟨x, hxrest, hxnone⟩
        exact ⟨e, by simp only [runToolsChat, htool, he, Except.map]⟩

theorem invoke_tools_ids (tools : ToolDict)
    (tool_uses : List ToolUseContentModelBody)
    (rs : List ConverseApiToolResult)
    (h : _invoke_tools tools tool_uses = .ok rs) :
    rs.map ConverseApiToolResult.toolUseId =
      tool_uses.map ToolUseContentModelBody.tool_use_id := by
  cases tool_uses with
  | nil =>
    simp only [_invoke_tools] at h
    cases h
    rfl
  | cons tu rest =>
    simp only [_invoke_tools] at h
    split at h
    · exact Except.noConfusion h
    · split at h
      · exact Except.noConfusion h
      · exact Except.noConfusion h

/-- Whether a value of `Except` is the propagation of an exception. -/
def isError {ε α : Type} : Except ε α → Bool
  | .error _ => true
  | .ok _ => false

/-- Every non-empty round of `AgentRunner._invoke_tools` propagates an
exception: ValueError on an unknown name, the validation error of the
pydantic construction, or the TypeError of the single-argument
`tool.run(args)` call. -/
theorem invoke_tools_cons_error (tools : ToolDict) (tu : ToolUseContentModelBody)
    (rest : List ToolUseContentModelBody) :
    isError (_invoke_tools tools (tu :: rest)) = true := by
  simp only [_invoke_tools]
  split
  · rfl
  · split
    · rfl
    · rfl

/-- Claim C4: in a tool-use round where every requested tool name is
registered, the chat loop produces a result list (no exception), and the
tool-result message fed back to the model carries exactly one result per
requested toolUseId, in request order, so with distinct requested ids there
are no omissions, extras or duplicates; and whenever
`AgentRunner._invoke_tools` returns a result list at all, its ids equal the
requested ids the same way. -/
theorem tool_result_id_correspondence :
    (∀ (tools : ToolDict) (contents : List ToolUseContentModelBody),
      (∀ c ∈ contents, (assocLookup tools c.name).isSome) →
      ∀ rs, runToolsChat tools contents = .ok rs →
        rs.map ConverseApiToolResult.toolUseId =
          contents.map ToolUseContentModelBody.tool_use_id ∧
        toolResultIds (toolResultMessage rs) =
          contents.map ToolUseContentModelBody.tool_use_id ∧
        ((contents.map ToolUseContentModelBody.tool_use_id).Nodup →
          (rs.map ConverseApiToolResult.toolUseId).Nodup)) ∧
    (∀ (tools : ToolDict) (contents : List ToolUseContentModelBody),
      (∀ c ∈ contents, (assocLookup tools c.name).isSome) →
      isError (runToolsChat tools contents) = false) ∧
    (∀ (tools : ToolDict) (tool_uses : List ToolUseContentModelBody)
      (rs : List ConverseApiToolResult),
      _invoke_tools tools tool_uses = .ok rs →
      rs.map ConverseApiToolResult.toolUseId =
        tool_uses.map ToolUseContentModelBody.tool_use_id) := by
  refine ⟨?_, ?_, invoke_tools_ids⟩
  · intro tools contents h rs hrs
    obtain ⟨rs0, hrs0, hids⟩ := runToolsChat_ok tools contents h
    rw [hrs0] at hrs
    injection hrs with hrs
    subst hrs
    exact ⟨hids, by rw [toolResultIds_toolResultMessage, hids],
      fun hnd => by rw [hids]; exact hnd⟩
  · intro tools contents h
    obtain ⟨rs0, hrs0, _⟩ := runToolsChat_ok tools contents h
    rw [hrs0]
    rfl

def demoGoodToolCore : AgentTool Unit :=
  { name := "echo", description := "echoes",
    args_schema := fun _ => .ok (),
    function := fun _ => .ok (.str "hello") }

def demoGoodTool : ToolSigma := ⟨Unit, demoGoodToolCore⟩

def demoFailFunToolCore : AgentTool Unit :=
  { name := "boom", description := "always raises",
    args_schema := fun _ => .ok (),
    function := fun _ => .error "boom" }

def demoFailFunTool : ToolSigma := ⟨Unit, demoFailFunToolCore⟩

def demoFailValToolCore : AgentTool Unit :=
  { name := "picky", description := "rejects every input",
    args_schema := fun _ => .error "validation failed",
    function := fun _ => .ok (.str "unreached") }

def demoFailValTool : ToolSigma := ⟨Unit, demoFailValToolCore⟩

def demoTools : ToolDict :=
  [("echo", demoGoodTool), ("boom", demoFailFunTool), ("picky", demoFailValTool)]

def demoUseEcho : ToolUseContentModelBody :=
  { tool_use_id := "tu1", name := "echo", input := [] }

def demoUseBoom : ToolUseContentModelBody :=
  { tool_use_id := "tu2", name := "boom", input := [] }

def demoUsePicky : ToolUseContentModelBody :=
  { tool_use_id := "tu3", name := "picky", input := [] }

def demoUseMissing : ToolUseContentModelBody :=
  { tool_use_id := "tu4", name := "nope", input := [] }

/-- The result list the chat round produces on `demoUseEcho, demoUseBoom`:
the echo tool succeeds, the boom tool fails, each keeps its requested id. -/
def demoChatResults : List ConverseApiToolResult :=
  [{ toolUseId := "tu1", content := [.text "hello"], status := .success },
   { toolUseId := "tu2", content := [.text "boom"], status := .error }]

theorem tool_result_id_correspondence_witness :
    (assocLookup demoTools demoUseEcho.name).isSome = true ∧
    (assocLookup demoTools demoUseBoom.name).isSome = true ∧
    isError (runToolsChat demoTools [demoUseEcho, demoUseBoom]) = false ∧
    (demoChatResults.map ConverseApiToolResult.toolUseId =
        [demoUseEcho, demoUseBoom].map ToolUseContentModelBody.tool_use_id ∧
      toolResultIds (toolResultMessage demoChatResults) =
        [demoUseEcho, demoUseBoom].map ToolUseContentModelBody.tool_use_id ∧
      (([demoUseEcho, demoUseBoom].map ToolUseContentModelBody.tool_use_id).Nodup →
        (demoChatResults.map ConverseApiToolResult.toolUseId).Nodup)) :=
  ⟨by decide, by decide,
   tool_result_id_correspondence.2.1 demoTools [demoUseEcho, demoUseBoom] (by decide),
   tool_result_id_correspondence.1 demoTools [demoUseEcho, demoUseBoom] (by decide)
     demoChatResults (by decide)⟩

/-- Claim C5 counterexample: invoking a tool through the agent loop is not
exception-free — in `AgentRunner._invoke_tools` the input validation at
line 205 of agent.py runs outside any exception handler, so a validation
failure propagates out of the round instead of producing a
`succeeded=false` result. -/
theorem tool_validation_propagates_counterexample :
    _invoke_tools demoTools [demoUsePicky] = Except.error "validation failed" := by
  decide

/-- Claim C5 (amended): `AgentTool.run` never propagates — a validation
failure or an exception of the underlying function yields a
`succeeded=false` result whose body is a single text block holding the
error string; in the chat loop a round whose tool names are all registered
always yields one result per invocation, so one failing tool aborts neither
the turn nor its siblings.  In `AgentRunner._invoke_tools`, by contrast, no
invocation of a registered tool is contained: input validation runs before
`tool.run` and outside any exception handler, and the single-argument call
`tool.run(args)` itself raises a TypeError against the two-argument
signature of the imported AgentTool, so the round always propagates an
exception. -/
theorem tool_failure_isolated :
    (∀ (T : Type) (tool : AgentTool T) (id : String) (input : JsonDict)
      (e : String), tool.args_schema input = .error e →
      tool.run id input =
        { tool_use_id := id, succeeded := false, body := [.text e] }) ∧
    (∀ (T : Type) (tool : AgentTool T) (id : String) (input : JsonDict)
      (a : T) (e : String), tool.args_schema input = .ok a →
      tool.function a = .error e →
      tool.run id input =
        { tool_use_id := id, succeeded := false, body := [.text e] }) ∧
    (∀ (tools : ToolDict) (contents : List ToolUseContentModelBody),
      (∀ c ∈ contents, (assocLookup tools c.name).isSome) →
      ∀ rs, runToolsChat tools contents = .ok rs → rs.length = contents.length) ∧
    (∀ (tools : ToolDict) (tu : ToolUseContentModelBody)
      (rest : List ToolUseContentModelBody),
      (assocLookup tools tu.name).isSome = true →
      isError (_invoke_tools tools (tu :: rest)) = true) := by
  refine ⟨?_, ?_, ?_, ?_⟩
  · intro T tool id input e hv
    simp [AgentTool.run, hv]
  · intro T tool id input a e hv hf
    simp [AgentTool.run, hv, hf]
  · intro tools contents h rs hrs
    obtain ⟨rs0, hrs0, hids⟩ := runToolsChat_ok tools contents h
    rw [hrs0] at hrs
    injection hrs with hrs
    subst hrs
    have := congrArg List.length hids
    simpa using this
  · intro tools tu rest _
    exact invoke_tools_cons_error tools tu rest

theorem tool_failure_isolated_witness :
    demoFailValToolCore.args_schema [] = Except.error "validation failed" ∧
    demoFailValToolCore.run "t1" [] =
      { tool_use_id := "t1", succeeded := false,
        body := [.text "validation failed"] } ∧
    demoFailFunToolCore.args_schema [] = Except.ok () ∧
    demoFailFunToolCore.function () = Except.error "boom" ∧
    demoFailFunToolCore.run "t2" [] =
      { tool_use_id := "t2", succeeded := false, body := [.text "boom"] } ∧
    (assocLookup demoTools demoUseEcho.name).isSome = true ∧
    (assocLookup demoTools demoUseBoom.name).isSome = true ∧
    runToolsChat demoTools [demoUseEcho, demoUseBoom] = .ok demoChatResults ∧
    demoChatResults.length = 2 ∧
    isError (_invoke_tools demoTools [demoUseEcho, demoUseBoom]) = true :=
  ⟨by decide,
   tool_failure_isolated.1 Unit demoFailValToolCore "t1" [] "validation failed" (by decide),
   by decide, by decide,
   tool_failure_isolated.2.1 Unit demoFailFunToolCore "t2" [] () "boom" (by decide) (by decide),
   by decide, by decide, by decide,
   tool_failure_isolated.2.2.1 demoTools [demoUseEcho, demoUseBoom] (by decide)
     demoChatResults (by decide),
   tool_failure_isolated.2.2.2 demoTools demoUseEcho [demoUseBoom] (by decide)⟩

/-- Claim C6: when the underlying function returns without raising,
`AgentTool.run` reports success with the return value normalized exactly as
the source branches do: a string becomes one text block, a mapping one json
block, a structured result object its own serialization, and a list one
block per element with each element independently coerced. -/
theorem tool_run_success_normalization :
    (∀ (T : Type) (tool : AgentTool T) (id : String) (input : JsonDict)
      (a : T) (res : AgentResult), tool.args_schema input = .ok a →
      tool.function a = .ok res →
      tool.run id input =
        { tool_use_id := id, succeeded := true, body := normalizeResult res }) ∧
    (∀ s, normalizeResult (.str s) = [.text s]) ∧
    (∀ d, normalizeResult (.dict d) = [.json d]) ∧
    (∀ m, normalizeResult (.toolResult m) = [m.to_content_for_converse]) ∧
    (∀ items, normalizeResult (.list items) = items.map normalizeItem) ∧
    (∀ s, normalizeItem (.str s) = .text s) ∧
    (∀ d, normalizeItem (.dict d) = .json d) ∧
    (∀ m, normalizeItem (.toolResult m) = m.to_content_for_converse) := by
  refine ⟨?_, fun s => rfl, fun d => rfl, fun m => rfl, fun items => rfl,
    fun s => rfl, fun d => rfl, fun m => rfl⟩
  intro T tool id input a res hv hf
  simp [AgentTool.run, hv, hf]

/-- A tool returning a heterogeneous list, exercising every coercion of the
list branch. -/
def demoListToolCore : AgentTool Unit :=
  { name := "multi", description := "returns a list",
    args_schema := fun _ => .ok (),
    function := fun _ => .ok (.list
      [.str "a", .dict [("k", "v")], .toolResult ⟨.image "png" "data"⟩]) }

theorem tool_run_success_normalization_witness :
    demoListToolCore.args_schema [] = Except.ok () ∧
    demoListToolCore.function () = Except.ok (.list
      [.str "a", .dict [("k", "v")], .toolResult ⟨.image "png" "data"⟩]) ∧
    demoListToolCore.run "t9" [] =
      { tool_use_id := "t9", succeeded := true,
        body := normalizeResult (.list
          [.str "a", .dict [("k", "v")], .toolResult ⟨.image "png" "data"⟩]) } :=
  ⟨by decide, by decide,
   tool_run_success_normalization.1 Unit demoListToolCore "t9" [] ()
     (.list [.str "a", .dict [("k", "v")], .toolResult ⟨.image "png" "data"⟩])
     (by decide) (by decide)⟩

/-- Claim C7: a tool-use round requesting a name outside the registered tool
set makes the turn fail — `AgentRunner._invoke_tools` raises instead of
skipping the unknown tool, and in the chat loop the round aborts the turn
before `store_conversation` runs, so no partial message reaches the store. -/
theorem unknown_tool_aborts :
    (∀ (tools : ToolDict) (tool_uses : List ToolUseContentModelBody),
      (∃ tu ∈ tool_uses, (assocLookup tools tu.name).isNone = true) →
      isError (_invoke_tools tools tool_uses) = true) ∧
    (∀ (tools : ToolDict) (new_id : String) (chat_input_continue : Bool)
      (result : ChatStreamResult) (rest : List ChatStreamResult) (st : ChatState),
      result.stop_reason = "tool_use" →
      (∃ c ∈ toolUseContents (AgentMessageModel.from_message_model result.message),
        (assocLookup tools c.name).isNone = true) →
      (chatLoop tools new_id chat_input_continue (result :: rest) st).1 = [] ∧
      isError (chatLoop tools new_id chat_input_continue (result :: rest) st).2 =
        true) := by
  constructor
  · intro tools tool_uses h0
    cases tool_uses with
    | nil => simp at h0
    | cons tu rest => exact invoke_tools_cons_error tools tu rest
  · intro tools new_id chat_input_continue result rest st hstop hmiss0
    have hmiss : ∃ c ∈ toolUseContents (AgentMessageModel.from_message_model
        result.message), assocLookup tools c.name = none := by
      obtain ⟨c, hc, hnone⟩ := hmiss0
      exact ⟨c, hc, Option.isNone_iff_eq_none.mp hnone⟩
    obtain ⟨e, he⟩ := runToolsChat_missing tools _ hmiss
    have : chatLoop tools new_id chat_input_continue (result :: rest) st =
        ([], Except.error e) := by
      simp only [chatLoop, hstop, he]
      simp
    rw [this]
    exact ⟨rfl, rfl⟩

/-- A stream result whose message requests an unregistered tool name. -/
def demoBadRoundResult : ChatStreamResult :=
  { message :=
      { role := "assistant", content := [.toolUse demoUseMissing],
        parent := none, children := [], thinking_log := none },
    stop_reason := "tool_use",
    price := 1 / 100 }

def demoConversation : Conversation :=
  { message_map := initialMessageMap none,
    last_message_id := "", total_price := 0, should_continue := false }

def demoChatState : ChatState :=
  { conversation := demoConversation, messages := [], thinking_log := [],
    continue_generate := false, user_msg_id := "u1" }

theorem unknown_tool_aborts_witness :
    (assocLookup demoTools demoUseMissing.name).isNone = true ∧
    isError (_invoke_tools demoTools [demoUseEcho, demoUseMissing]) = true ∧
    demoBadRoundResult.stop_reason = "tool_use" ∧
    ((chatLoop demoTools "a1" false [demoBadRoundResult] demoChatState).1 = [] ∧
      isError (chatLoop demoTools "a1" false [demoBadRoundResult] demoChatState).2 =
        true) :=
  ⟨by decide,
   unknown_tool_aborts.1 demoTools [demoUseEcho, demoUseMissing] (by decide),
   by decide,
   unknown_tool_aborts.2 demoTools "a1" false demoBadRoundResult [] demoChatState
     (by decide) (by decide)⟩

/-! ## Lemmas on the association-list dictionary operations -/

theorem assocLookup_append_left {β : Type u} (m₁ m₂ : List (String × β))
    (k : String) (h : (assocLookup m₁ k).isSome = true) :
    assocLookup (m₁ ++ m₂) k = assocLookup m₁ k := by
  induction m₁ with
  | nil => simp [assocLookup] at h
  | cons e rest ih =>
    by_cases he : e.1 = k
    · simp [assocLookup, he]
    · simp only [assocLookup, he, if_false, List.cons_append] at h ⊢
      simpa [assocLookup, he] using ih h

theorem assocLookup_eq_none_iff {β : Type u} (m : List (String × β)) (k : String) :
    assocLookup m k = none ↔ ∀ e ∈ m, e.1 ≠ k := by
  induction m with
  | nil => simp [assocLookup]
  | cons e rest ih =>
    by_cases he : e.1 = k
    · simp [assocLookup, he]
    · simp [assocLookup, he, ih]

theorem assocLookup_mem {β : Type u} (m : List (String × β)) (k : String)
    (v : β) (h : assocLookup m k = some v) : (k, v) ∈ m := by
  induction m with
  | nil => simp [assocLookup] at h
  | cons e rest ih =>
    by_cases he : e.1 = k
    · simp only [assocLookup, he, if_pos] at h
      injection h with h
      subst h
      rw [← he]
      exact List.mem_cons_self e rest
    · simp only [assocLookup, he, if_false] at h
      exact List.mem_cons_of_mem e (ih h)

theorem lookup_mapAdjust_self (m : MessageMap) (k : String)
    (f : MessageModel → MessageModel) :
    assocLookup (mapAdjust m k f) k = (assocLookup m k).map f := by
  induction m with
  | nil => rfl
  | cons e rest ih =>
    by_cases he : e.1 = k
    · simp [mapAdjust, assocLookup, he]
    · simpa [mapAdjust, assocLookup, he] using ih

theorem lookup_mapAdjust_ne (m : MessageMap) (k k₂ : String)
    (f : MessageModel → MessageModel) (h : k₂ ≠ k) :
    assocLookup (mapAdjust m k f) k₂ = assocLookup m k₂ := by
  induction m with
  | nil => rfl
  | cons e rest ih =>
    simp only [mapAdjust, List.map_cons] at ih ⊢
    by_cases he : e.1 = k
    · have he2 : e.1 ≠ k₂ := by rw [he]; exact Ne.symm h
      rw [if_pos he]
      simp only [assocLookup, he2, if_false, ih]
    · rw [if_neg he]
      by_cases he2 : e.1 = k₂
      · simp only [assocLookup, he2, if_pos]
      · simp only [assocLookup, he2, if_false, ih]

theorem mem_mapErase (m : MessageMap) (k : String) (x : String × MessageModel) :
    x ∈ mapErase m k → x ∈ m := by
  induction m with
  | nil => intro h; exact absurd h (List.not_mem_nil x)
  | cons e rest ih =>
    intro h
    by_cases he : e.1 = k
    · rw [mapErase, if_pos he] at h
      exact List.mem_cons_of_mem e (ih h)
    · rw [mapErase, if_neg he] at h
      rcases List.mem_cons.mp h with rfl | h
      · exact List.mem_cons_self x rest
      · exact List.mem_cons_of_mem e (ih h)

theorem key_ne_of_mem_mapErase (m : MessageMap) (k : String)
    (x : String × MessageModel) : x ∈ mapErase m k → x.1 ≠ k := by
  induction m with
  | nil => intro h; exact absurd h (List.not_mem_nil x)
  | cons e rest ih =>
    intro h
    by_cases he : e.1 = k
    · rw [mapErase, if_pos he] at h
      exact ih h
    · rw [mapErase, if_neg he] at h
      rcases List.mem_cons.mp h with rfl | h
      · exact he
      · exact ih h

theorem lookup_mapErase_self (m : MessageMap) (k : String) :
    assocLookup (mapErase m k) k = none := by
  rw [assocLookup_eq_none_iff]
  exact fun e he => key_ne_of_mem_mapErase m k e he

theorem lookup_mapErase_ne (m : MessageMap) (k k₂ : String) (h : k₂ ≠ k) :
    assocLookup (mapErase m k) k₂ = assocLookup m k₂ := by
  induction m with
  | nil => rfl
  | cons e rest ih =>
    by_cases he : e.1 = k
    · have he2 : e.1 ≠ k₂ := by rw [he]; exact Ne.symm h
      rw [mapErase, if_pos he, ih]
      simp only [assocLookup, he2, if_false]
    · rw [mapErase, if_neg he]
      by_cases he2 : e.1 = k₂
      · simp only [assocLookup, he2, if_pos]
      · simp only [assocLookup, he2, if_false, ih]

theorem assocLookup_append {β : Type u} (m₁ m₂ : List (String × β)) (k : String) :
    assocLookup (m₁ ++ m₂) k =
      match assocLookup m₁ k with
      | some v => some v
      | none => assocLookup m₂ k := by
  induction m₁ with
  | nil => rfl
  | cons e rest ih =>
    by_cases he : e.1 = k <;> simp [assocLookup, he, ih]

theorem mapInsert_present_eq_adjust (m : MessageMap) (k : String)
    (v : MessageModel) (h : (assocLookup m k).isSome = true) :
    mapInsert m k v = mapAdjust m k fun _ => v := by
  unfold mapInsert
  rw [if_pos h]
  rfl

theorem mapInsert_absent_eq_append (m : MessageMap) (k : String)
    (v : MessageModel) (h : assocLookup m k = none) :
    mapInsert m k v = m ++ [(k, v)] := by
  unfold mapInsert
  rw [if_neg (by rw [h]; exact Bool.false_ne_true)]

theorem lookup_mapInsert_self (m : MessageMap) (k : String) (v : MessageModel) :
    assocLookup (mapInsert m k v) k = some v := by
  by_cases hs : (assocLookup m k).isSome = true
  · rw [mapInsert_present_eq_adjust m k v hs, lookup_mapAdjust_self]
    obtain ⟨w, hw⟩ := Option.isSome_iff_exists.mp hs
    rw [hw]
    rfl
  · rw [Option.not_isSome_iff_eq_none] at hs
    rw [mapInsert_absent_eq_append m k v hs, assocLookup_append, hs]
    simp [assocLookup]

theorem lookup_mapInsert_ne (m : MessageMap) (k k₂ : String) (v : MessageModel)
    (h : k₂ ≠ k) : assocLookup (mapInsert m k v) k₂ = assocLookup m k₂ := by
  by_cases hs : (assocLookup m k).isSome = true
  · rw [mapInsert_present_eq_adjust m k v hs, lookup_mapAdjust_ne m k k₂ _ h]
  · rw [Option.not_isSome_iff_eq_none] at hs
    rw [mapInsert_absent_eq_append m k v hs, assocLookup_append]
    cases hm : assocLookup m k₂ with
    | some w => rfl
    | none => simp [assocLookup, Ne.symm h]

theorem keys_mapAdjust (m : MessageMap) (k : String)
    (f : MessageModel → MessageModel) :
    (mapAdjust m k f).map Prod.fst = m.map Prod.fst := by
  induction m with
  | nil => rfl
  | cons e rest ih =>
    by_cases he : e.1 = k <;> simp [mapAdjust, he] at ih ⊢ <;>
      simpa [mapAdjust] using ih

theorem keys_mapInsert_present (m : MessageMap) (k : String) (v : MessageModel)
    (h : (assocLookup m k).isSome = true) :
    (mapInsert m k v).map Prod.fst = m.map Prod.fst := by
  rw [mapInsert_present_eq_adjust m k v h, keys_mapAdjust]

/-! ## Theorems: continue generation (claim C3) -/

/-- Claim C3: on a continue-generation turn, if no tool round happened the
previous assistant leaf is overwritten in place under its existing id and
the set of node ids is unchanged; if a tool round happened, the previous
leaf is removed from its parent children list and deleted from the map
before the replacement is attached under a fresh id, so the parent ends up
with the new id appended and (when the old id occurred at most once) no
remaining occurrence of the old id. -/
theorem continue_generation_replaces_leaf :
    (∀ (conv : Conversation) (user_msg_id new_id : String) (message : MessageModel),
      (assocLookup conv.message_map conv.last_message_id).isSome = true →
      (finalizeTurn conv user_msg_id message [] true new_id).1.message_map.map
          Prod.fst = conv.message_map.map Prod.fst ∧
      assocLookup (finalizeTurn conv user_msg_id message [] true new_id).1.message_map
          conv.last_message_id = some { message with parent := some user_msg_id } ∧
      (finalizeTurn conv user_msg_id message [] true new_id).2.1 =
          conv.last_message_id ∧
      (finalizeTurn conv user_msg_id message [] true new_id).1.last_message_id =
          conv.last_message_id) ∧
    (∀ (conv : Conversation) (user_msg_id new_id : String) (message : MessageModel)
      (log : List AgentMessageModel),
      log ≠ [] →
      user_msg_id ≠ conv.last_message_id →
      new_id ≠ conv.last_message_id →
      new_id ≠ user_msg_id →
      assocLookup (finalizeTurn conv user_msg_id message log true new_id).1.message_map
          conv.last_message_id = none ∧
      assocLookup (finalizeTurn conv user_msg_id message log true new_id).1.message_map
          new_id =
        some { message with parent := some user_msg_id, thinking_log := some log } ∧
      (∀ p, assocLookup conv.message_map user_msg_id = some p →
        assocLookup (finalizeTurn conv user_msg_id message log true new_id).1.message_map
            user_msg_id =
          some { p with children :=
            (p.children.erase conv.last_message_id) ++ [new_id] } ∧
        (p.children.count conv.last_message_id ≤ 1 →
          conv.last_message_id ∉ (p.children.erase conv.last_message_id) ++ [new_id])) ∧
      (finalizeTurn conv user_msg_id message log true new_id).1.last_message_id =
          new_id) := by
  constructor
  · intro conv u new message hsome
    have hbranch : finalizeTurn conv u message [] true new =
        ({ conv with
            message_map := mapInsert conv.message_map conv.last_message_id
              { message with parent := some u } },
         conv.last_message_id, { message with parent := some u }) := by
      simp [finalizeTurn]
    rw [hbranch]
    exact ⟨keys_mapInsert_present _ _ _ hsome, lookup_mapInsert_self _ _ _, rfl, rfl⟩
  · intro conv u new message log hlog hu hnew hnewu
    have hlen : log.length > 0 := List.length_pos.mpr hlog
    have hbranch : finalizeTurn conv u message log true new =
        ({ conv with
            message_map :=
              mapAdjust
                (mapInsert
                  (mapErase
                    (mapAdjust conv.message_map u fun p =>
                      { p with children := p.children.erase conv.last_message_id })
                    conv.last_message_id)
                  new
                  { message with parent := some u, thinking_log := some log })
                u fun p => { p with children := p.children ++ [new] },
            last_message_id := new },
         new, { message with parent := some u, thinking_log := some log }) := by
      simp [finalizeTurn, hlog, hlen]
    rw [hbranch]
    refine ⟨?_, ?_, ?_, rfl⟩
    · rw [lookup_mapAdjust_ne _ _ _ _ (Ne.symm hu),
        lookup_mapInsert_ne _ _ _ _ (Ne.symm hnew), lookup_mapErase_self]
    · rw [lookup_mapAdjust_ne _ _ _ _ hnewu, lookup_mapInsert_self]
    · intro p hp
      constructor
      · rw [lookup_mapAdjust_self, lookup_mapInsert_ne _ _ _ _ (Ne.symm hnewu),
          lookup_mapErase_ne _ _ _ hu, lookup_mapAdjust_self, hp]
        rfl
      · intro hcount hmem
        rcases List.mem_append.mp hmem with hmem | hmem
        · have h1 := List.count_erase_self conv.last_message_id p.children
          have h2 : 0 < (p.children.erase conv.last_message_id).count
              conv.last_message_id := List.count_pos_iff.mpr hmem
          omega
        · rw [List.mem_singleton] at hmem
          exact hnew hmem.symm

/-- A three-node conversation (system root, one user message, one assistant
leaf) about to be continued. -/
def demoLeafMap : MessageMap :=
  [("system", { systemRoot with children := ["u1"] }),
   ("u1", { role := "user", content := [.text "question"], parent := some "system",
            children := ["a1"], thinking_log := none }),
   ("a1", { role := "assistant", content := [.text "partial"], parent := some "u1",
            children := [], thinking_log := none })]

def demoLeafConv : Conversation :=
  { message_map := demoLeafMap, last_message_id := "a1", total_price := 0,
    should_continue := true }

def demoFinalMessage : MessageModel :=
  { role := "assistant", content := [.text "partial and more"],
    parent := none, children := [], thinking_log := none }

def demoLog : List AgentMessageModel :=
  [{ role := "assistant", content := [.toolUse demoUseEcho] }]

theorem continue_generation_replaces_leaf_witness :
    (assocLookup demoLeafConv.message_map demoLeafConv.last_message_id).isSome = true ∧
    ((finalizeTurn demoLeafConv "u1" demoFinalMessage [] true "zz").1.message_map.map
        Prod.fst = demoLeafConv.message_map.map Prod.fst ∧
      assocLookup (finalizeTurn demoLeafConv "u1" demoFinalMessage [] true
          "zz").1.message_map demoLeafConv.last_message_id =
        some { demoFinalMessage with parent := some "u1" } ∧
      (finalizeTurn demoLeafConv "u1" demoFinalMessage [] true "zz").2.1 =
        demoLeafConv.last_message_id ∧
      (finalizeTurn demoLeafConv "u1" demoFinalMessage [] true "zz").1.last_message_id =
        demoLeafConv.last_message_id) ∧
    (assocLookup (finalizeTurn demoLeafConv "u1" demoFinalMessage demoLog true
        "a2").1.message_map demoLeafConv.last_message_id = none ∧
      assocLookup (finalizeTurn demoLeafConv "u1" demoFinalMessage demoLog true
          "a2").1.message_map "a2" =
        some { demoFinalMessage with
          parent := some "u1",
          thinking_log := some demoLog } ∧
      (∀ p, assocLookup demoLeafConv.message_map "u1" = some p →
        assocLookup (finalizeTurn demoLeafConv "u1" demoFinalMessage demoLog true
            "a2").1.message_map "u1" =
          some { p with children :=
            (p.children.erase demoLeafConv.last_message_id) ++ ["a2"] } ∧
        (p.children.count demoLeafConv.last_message_id ≤ 1 →
          demoLeafConv.last_message_id ∉
            (p.children.erase demoLeafConv.last_message_id) ++ ["a2"])) ∧
      (finalizeTurn demoLeafConv "u1" demoFinalMessage demoLog true
          "a2").1.last_message_id = "a2") :=
  ⟨by decide,
   continue_generation_replaces_leaf.1 demoLeafConv "u1" "zz" demoFinalMessage
     (by decide),
   continue_generation_replaces_leaf.2 demoLeafConv "u1" "a2" demoFinalMessage
     demoLog (by decide) (by decide) (by decide) (by decide)⟩

/-! ## Theorems: the parent/children tree invariant (claim C9) -/

/-- The tree invariant of the spec: within a message map, a node id appears
in the children of another node exactly when its parent field names that
node. -/
def Inv (map : MessageMap) : Prop :=
  ∀ a ∈ map, ∀ b ∈ map, (a.1 ∈ b.2.children ↔ a.2.parent = some b.1)

instance (map : MessageMap) : Decidable (Inv map) :=
  inferInstanceAs (Decidable (∀ a ∈ map, ∀ b ∈ map,
    (a.1 ∈ b.2.children ↔ a.2.parent = some b.1)))

/-- Shape of the entries left by the remove-leaf rewrite (detach from the
parent children, then delete the node): every surviving entry keeps its key
and parent, and its children list is the original one or the original one
with the removed id erased. -/
theorem remove_leaf_shape (m : MessageMap) (user_id old_id : String)
    (x : String × MessageModel)
    (hx : x ∈ mapErase (mapAdjust m user_id fun p =>
      { p with children := p.children.erase old_id }) old_id) :
    x.1 ≠ old_id ∧ ∃ e ∈ m, x.1 = e.1 ∧ x.2.parent = e.2.parent ∧
      (x.2.children = e.2.children ∨ x.2.children = e.2.children.erase old_id) := by
  refine ⟨key_ne_of_mem_mapErase _ _ _ hx, ?_⟩
  have hx2 := mem_mapErase _ _ _ hx
  obtain ⟨e, he, hxe⟩ := List.mem_map.mp hx2
  by_cases hp : e.1 = user_id
  · rw [if_pos hp] at hxe
    exact ⟨e, he, by rw [← hxe], by rw [← hxe], Or.inr (by rw [← hxe])⟩
  · rw [if_neg hp] at hxe
    exact ⟨e, he, by rw [← hxe], by rw [← hxe], Or.inl (by rw [← hxe])⟩

/-- Removing a leaf (detach from the parent children list, delete the
entry) preserves the tree invariant. -/
theorem inv_remove_leaf (m : MessageMap) (user_id old_id : String)
    (hinv : Inv m) :
    Inv (mapErase (mapAdjust m user_id fun p =>
      { p with children := p.children.erase old_id }) old_id) := by
  intro a ha b hb
  obtain ⟨hna, ea, hea, ha1, hapar, _⟩ := remove_leaf_shape m user_id old_id a ha
  obtain ⟨_, eb, heb, hb1, _, hbchild⟩ := remove_leaf_shape m user_id old_id b hb
  rw [ha1, hapar, hb1]
  have hbase := hinv ea hea eb heb
  rcases hbchild with hbc | hbc <;> rw [hbc]
  · exact hbase
  · rw [List.mem_erase_of_ne (by rw [← ha1]; exact hna)]
    exact hbase

/-- Inserting a fresh leaf under an existing parent (store the node, append
its id to the parent children list) preserves the tree invariant. -/
theorem inv_insert_attach (m : MessageMap) (parent_id new_id : String)
    (msg : MessageModel)
    (hinv : Inv m)
    (hpar : (assocLookup m parent_id).isSome = true)
    (hfresh : assocLookup m new_id = none)
    (hchild : ∀ e ∈ m, new_id ∉ e.2.children)
    (hparent : ∀ e ∈ m, e.2.parent ≠ some new_id)
    (hmsgpar : msg.parent = some parent_id)
    (hmsgchild : msg.children = []) :
    Inv (mapAdjust (mapInsert m new_id msg) parent_id
      fun p => { p with children := p.children ++ [new_id] }) := by
  have hne : new_id ≠ parent_id := by
    intro h
    rw [h] at hfresh
    rw [hfresh] at hpar
    exact absurd hpar (by simp)
  have hkeys : ∀ e ∈ m, e.1 ≠ new_id := (assocLookup_eq_none_iff m new_id).mp hfresh
  rw [mapInsert_absent_eq_append _ _ _ hfresh]
  have hsplit : mapAdjust (m ++ [(new_id, msg)]) parent_id
      (fun p => { p with children := p.children ++ [new_id] }) =
      mapAdjust m parent_id (fun p => { p with children := p.children ++ [new_id] })
        ++ [(new_id, msg)] := by
    simp [mapAdjust, hne]
  rw [hsplit]
  have hshape : ∀ x ∈ mapAdjust m parent_id
      (fun p => { p with children := p.children ++ [new_id] }),
      ∃ e ∈ m, x.1 = e.1 ∧ x.2.parent = e.2.parent ∧
        ((e.1 = parent_id ∧ x.2.children = e.2.children ++ [new_id]) ∨
          (e.1 ≠ parent_id ∧ x.2.children = e.2.children)) := by
    intro x hx
    obtain ⟨e, he, hxe⟩ := List.mem_map.mp hx
    by_cases hp : e.1 = parent_id
    · rw [if_pos hp] at hxe
      exact ⟨e, he, by rw [← hxe], by rw [← hxe], Or.inl ⟨hp, by rw [← hxe]⟩⟩
    · rw [if_neg hp] at hxe
      exact ⟨e, he, by rw [← hxe], by rw [← hxe], Or.inr ⟨hp, by rw [← hxe]⟩⟩
  intro a ha b hb
  rcases List.mem_append.mp ha with ha | ha <;>
    rcases List.mem_append.mp hb with hb | hb
  · -- both entries come from the original map
    obtain ⟨ea, hea, ha1, hapar, _⟩ := hshape a ha
    obtain ⟨eb, heb, hb1, _, hbchild⟩ := hshape b hb
    rw [ha1, hapar, hb1]
    have hbase := hinv ea hea eb heb
    rcases hbchild with ⟨_, hbc⟩ | ⟨_, hbc⟩ <;> rw [hbc]
    · rw [List.mem_append, List.mem_singleton]
      constructor
      · intro h
        rcases h with h | h
        · exact hbase.mp h
        · exact absurd h (hkeys ea hea)
      · intro h
        exact Or.inl (hbase.mpr h)
    · exact hbase
  · -- the original entry against the new leaf
    obtain ⟨ea, hea, ha1, hapar, _⟩ := hshape a ha
    rw [List.mem_singleton] at hb
    subst hb
    rw [ha1, hapar]
    simp only [hmsgchild]
    constructor
    · intro h
      exact absurd h (List.not_mem_nil ea.1)
    · intro h
      exact absurd h (hparent ea hea)
  · -- the new leaf against an original entry
    obtain ⟨eb, heb, hb1, _, hbchild⟩ := hshape b hb
    rw [List.mem_singleton] at ha
    subst ha
    rw [hb1, hmsgpar]
    rcases hbchild with ⟨hbp, hbc⟩ | ⟨hbp, hbc⟩ <;> rw [hbc]
    · simp [hbp]
    · constructor
      · intro h
        exact absurd h (hchild eb heb)
      · intro h
        injection h with h
        exact absurd h.symm hbp
  · -- the new leaf against itself
    rw [List.mem_singleton] at ha hb
    subst ha
    subst hb
    simp only [hmsgchild, hmsgpar]
    constructor
    · intro h
      exact absurd h (List.not_mem_nil new_id)
    · intro h
      injection h with h
      exact absurd h.symm hne

/-- The two-node (or one-node) initial map of a new conversation satisfies
the tree invariant. -/
theorem inv_initialMessageMap (instruction : Option String) :
    Inv (initialMessageMap instruction) := by
  cases instruction with
  | none =>
    intro a ha b hb
    simp only [initialMessageMap, List.mem_singleton] at ha hb
    subst ha
    subst hb
    simp [systemRoot]
  | some instr =>
    intro a ha b hb
    simp only [initialMessageMap, List.mem_cons, List.mem_singleton,
      List.not_mem_nil, or_false] at ha hb
    rcases ha with rfl | rfl <;> rcases hb with rfl | rfl <;> simp [systemRoot]

/-- Claim C9: every mutation of the conversation message map — creating the
root (and instruction) nodes, appending the user message, attaching the
final assistant message, and the delete-and-replace of continue-generation —
preserves the invariant that a message id lies in a parent children list
exactly when the message parent field names that parent (under freshness of
the newly issued id and leaf-ness of the appended node). -/
theorem message_tree_invariant_preserved :
    (∀ instruction : Option String, Inv (initialMessageMap instruction)) ∧
    (∀ (conv : Conversation) (parent_id message_id : String) (msg : MessageModel),
      Inv conv.message_map →
      (assocLookup conv.message_map parent_id).isSome = true →
      assocLookup conv.message_map message_id = none →
      (∀ e ∈ conv.message_map, message_id ∉ e.2.children) →
      (∀ e ∈ conv.message_map, e.2.parent ≠ some message_id) →
      msg.children = [] →
      Inv (appendUserMessage conv parent_id message_id msg).message_map) ∧
    (∀ (conv : Conversation) (user_msg_id new_id : String) (message : MessageModel)
      (log : List AgentMessageModel),
      Inv conv.message_map →
      (assocLookup conv.message_map user_msg_id).isSome = true →
      assocLookup conv.message_map new_id = none →
      (∀ e ∈ conv.message_map, new_id ∉ e.2.children) →
      (∀ e ∈ conv.message_map, e.2.parent ≠ some new_id) →
      message.children = [] →
      Inv (finalizeTurn conv user_msg_id message log false new_id).1.message_map) ∧
    (∀ (conv : Conversation) (user_msg_id new_id : String) (message : MessageModel)
      (log : List AgentMessageModel),
      log ≠ [] →
      Inv conv.message_map →
      user_msg_id ≠ conv.last_message_id →
      new_id ≠ conv.last_message_id →
      new_id ≠ user_msg_id →
      (assocLookup conv.message_map user_msg_id).isSome = true →
      assocLookup conv.message_map new_id = none →
      (∀ e ∈ conv.message_map, new_id ∉ e.2.children) →
      (∀ e ∈ conv.message_map, e.2.parent ≠ some new_id) →
      message.children = [] →
      Inv (finalizeTurn conv user_msg_id message log true new_id).1.message_map) := by
  refine ⟨inv_initialMessageMap, ?_, ?_, ?_⟩
  · intro conv parent_id message_id msg hinv hpar hfr hch hpa hmc
    exact inv_insert_attach conv.message_map parent_id message_id _ hinv hpar hfr
      hch hpa rfl hmc
  · intro conv u new message log hinv hpar hfr hch hpa hmc
    have e3 : (finalizeTurn conv u message log false new).1.message_map =
        mapAdjust (mapInsert conv.message_map new
          { message with
            parent := some u,
            thinking_log := if log.length > 0 then some log
                            else message.thinking_log })
          u fun p => { p with children := p.children ++ [new] } := by
      simp [finalizeTurn]
    rw [e3]
    exact inv_insert_attach conv.message_map u new _ hinv hpar hfr hch hpa rfl hmc
  · intro conv u new message log hlog hinv hu hnewold hnewu hpar hfr hch hpa hmc
    have e4 : (finalizeTurn conv u message log true new).1.message_map =
        mapAdjust (mapInsert
          (mapErase (mapAdjust conv.message_map u fun p =>
            { p with children := p.children.erase conv.last_message_id })
            conv.last_message_id)
          new { message with parent := some u, thinking_log := some log })
          u fun p => { p with children := p.children ++ [new] } := by
      simp [finalizeTurn, hlog, List.length_pos.mpr hlog]
    have hinv2 := inv_remove_leaf conv.message_map u conv.last_message_id hinv
    have hpar2 : (assocLookup (mapErase (mapAdjust conv.message_map u fun p =>
        { p with children := p.children.erase conv.last_message_id })
        conv.last_message_id) u).isSome = true := by
      rw [lookup_mapErase_ne _ _ _ hu, lookup_mapAdjust_self]
      obtain ⟨p, hp⟩ := Option.isSome_iff_exists.mp hpar
      rw [hp]
      rfl
    have hfr2 : assocLookup (mapErase (mapAdjust conv.message_map u fun p =>
        { p with children := p.children.erase conv.last_message_id })
        conv.last_message_id) new = none := by
      rw [lookup_mapErase_ne _ _ _ hnewold, lookup_mapAdjust_ne _ _ _ _ hnewu, hfr]
    have hch2 : ∀ e ∈ mapErase (mapAdjust conv.message_map u fun p =>
        { p with children := p.children.erase conv.last_message_id })
        conv.last_message_id, new ∉ e.2.children := by
      intro e he hmem
      obtain ⟨_, e₀, he₀, _, _, hc⟩ := remove_leaf_shape _ _ _ e he
      rcases hc with hc | hc <;> rw [hc] at hmem
      · exact hch e₀ he₀ hmem
      · exact hch e₀ he₀ (List.mem_of_mem_erase hmem)
    have hpa2 : ∀ e ∈ mapErase (mapAdjust conv.message_map u fun p =>
        { p with children := p.children.erase conv.last_message_id })
        conv.last_message_id, e.2.parent ≠ some new := by
      intro e he
      obtain ⟨_, e₀, he₀, _, hp, _⟩ := remove_leaf_shape _ _ _ e he
      rw [hp]
      exact hpa e₀ he₀
    rw [e4]
    exact inv_insert_attach _ u new _ hinv2 hpar2 hfr2 hch2 hpa2 rfl hmc

def demoConv0 : Conversation :=
  { message_map := initialMessageMap (some "be helpful"),
    last_message_id := "", total_price := 0, should_continue := false }

def demoUserMsg : MessageModel :=
  { role := "user", content := [.text "question"], parent := none,
    children := [], thinking_log := none }

def demoConv1 : Conversation :=
  appendUserMessage demoConv0 "instruction" "u1" demoUserMsg

theorem message_tree_invariant_preserved_witness :
    Inv (initialMessageMap (some "be helpful")) ∧
    Inv demoConv1.message_map ∧
    Inv (finalizeTurn demoConv1 "u1" demoFinalMessage [] false "a1").1.message_map ∧
    Inv (finalizeTurn demoLeafConv "u1" demoFinalMessage demoLog true
      "a2").1.message_map :=
  ⟨message_tree_invariant_preserved.1 (some "be helpful"),
   message_tree_invariant_preserved.2.1 demoConv0 "instruction" "u1" demoUserMsg
     (by decide) (by decide) (by decide) (by decide) (by decide) (by decide),
   message_tree_invariant_preserved.2.2.1 demoConv1 "u1" "a1" demoFinalMessage []
     (by decide) (by decide) (by decide) (by decide) (by decide) (by decide),
   message_tree_invariant_preserved.2.2.2 demoLeafConv "u1" "a2" demoFinalMessage
     demoLog (by decide) (by decide) (by decide) (by decide) (by decide)
     (by decide) (by decide) (by decide) (by decide) (by decide)⟩

/-! ## Theorems: trace_to_root (claim C2) -/

/-- The parent-link path from a node to the root: each entry is stored in
the map under its id, consecutive entries are linked by the parent field,
and the last entry is the root. -/
inductive Chain (map : MessageMap) : String → List (String × MessageModel) → Prop
  | root (id : String) (n : MessageModel) :
      assocLookup map id = some n → n.parent = none → Chain map id [(id, n)]
  | step (id : String) (n : MessageModel) (pid : String)
      (rest : List (String × MessageModel)) :
      assocLookup map id = some n → n.parent = some pid →
      Chain map pid rest → Chain map id ((id, n) :: rest)

theorem traceFrom_chain (map : MessageMap) (id : String)
    (path : List (String × MessageModel)) (h : Chain map id path) :
    ∀ fuel, path.length ≤ fuel →
      traceFrom map fuel id =
        (path.map fun e =>
          AgentMessageModel.from_message_model e.2 ::
            ((logOf e.2).reverse.filter keepInLog)).flatten := by
  induction h with
  | root id n hlook hpar =>
    intro fuel hfuel
    cases fuel with
    | zero => simp at hfuel
    | succ fuel => simp [traceFrom, hlook, hpar]
  | step id n pid rest hlook hpar hchain ih =>
    intro fuel hfuel
    cases fuel with
    | zero => simp at hfuel
    | succ fuel =>
      have hrest : rest.length ≤ fuel := by
        simp only [List.length_cons] at hfuel
        omega
      simp [traceFrom, hlook, hpar, ih fuel hrest]

/-- Reversing the leaf-to-root accumulated segments yields, per node in
root-to-leaf order, the filtered thinking log (in original order) followed
by the node projection. -/
theorem flatten_reverse_seg (path : List (String × MessageModel)) :
    ((path.map fun e =>
        AgentMessageModel.from_message_model e.2 ::
          ((logOf e.2).reverse.filter keepInLog)).flatten).reverse =
      (path.reverse.map fun e =>
        ((logOf e.2).filter keepInLog) ++
          [AgentMessageModel.from_message_model e.2]).flatten := by
  induction path with
  | nil => rfl
  | cons e rest ih =>
    simp [List.filter_reverse] at ih ⊢
    simp [ih]

/-- Claim C2: `trace_to_root` returns, for the path from the resolved start
node up to the root, the concatenation — in root-to-leaf order — of, per
node, its thinking-log entries filtered to those carrying tool-use or
tool-result content (plain-text entries dropped, original log order kept)
followed by the node itself; in particular every node of the path occupies
exactly one slot of the output, root to leaf, with its filtered log
adjacent to it. -/
theorem trace_to_root_spec (map : MessageMap) (nodeId : Option String)
    (path : List (String × MessageModel))
    (h : Chain map (resolveNodeId nodeId map) path)
    (hfuel : path.length ≤ map.length + 1) :
    trace_to_root nodeId map =
      (path.reverse.map fun e =>
        ((logOf e.2).filter keepInLog) ++
          [AgentMessageModel.from_message_model e.2]).flatten := by
  unfold trace_to_root
  rw [traceFrom_chain map _ path h _ hfuel, flatten_reverse_seg]

/-- A three-node conversation whose assistant leaf carries a thinking log
holding a tool-use entry, a plain-text entry (to be dropped) and a
tool-result entry. -/
def demoMixedLog : List AgentMessageModel :=
  [{ role := "assistant", content := [.toolUse demoUseEcho] },
   { role := "assistant", content := [.text "let me look that up"] },
   { role := "user",
     content := [.toolResult
       { tool_use_id := "tu1", content := [.text "hello"], status := .success }] }]

def demoSys : MessageModel := { systemRoot with children := ["u1"] }

def demoU1 : MessageModel :=
  { role := "user", content := [.text "question"], parent := some "system",
    children := ["a1"], thinking_log := none }

def demoA1 : MessageModel :=
  { role := "assistant", content := [.text "answer"], parent := some "u1",
    children := [], thinking_log := some demoMixedLog }

def demoTraceMap : MessageMap :=
  [("system", demoSys), ("u1", demoU1), ("a1", demoA1)]

def demoTracePath : List (String × MessageModel) :=
  [("a1", demoA1), ("u1", demoU1), ("system", demoSys)]

theorem demoChainA1 : Chain demoTraceMap "a1" demoTracePath :=
  Chain.step "a1" demoA1 "u1" _ (by decide) (by decide)
    (Chain.step "u1" demoU1 "system" _ (by decide) (by decide)
      (Chain.root "system" demoSys (by decide) (by decide)))

theorem trace_to_root_spec_witness :
    trace_to_root (some "a1") demoTraceMap =
      (demoTracePath.reverse.map fun e =>
        ((logOf e.2).filter keepInLog) ++
          [AgentMessageModel.from_message_model e.2]).flatten :=
  trace_to_root_spec demoTraceMap (some "a1") demoTracePath demoChainA1 (by decide)

/-! ## Theorems: agent-loop usage accounting (claim C1) -/

def demoResponseEnd : ConverseResponse :=
  { content := [.text "hello"], stopReason := "end_turn",
    usage := { inputTokens := 10, outputTokens := 20 } }

/-- Claim C1 fails on the code: `AgentRunner.run` increments its token
totals only inside the tool loop, after each subsequent converse call, so
the usage of the first call is never counted.  On a turn with a single
model invocation reporting (10, 20) tokens, the returned counts are (0, 0)
and the price is the price of zero tokens, although the claim requires
(10, 20) and a strictly different price. -/
theorem agent_run_drops_first_usage :
    AgentRunner.run demoTools demoTable "claude-v3-sonnet" "us-east-1"
        [demoUserMsg] [demoResponseEnd] =
      .ok { thinking_conversation :=
              [AgentMessageModel.from_message_model demoUserMsg],
            full_token := "hello", stop_reason := "end_turn",
            input_token_count := 0, output_token_count := 0,
            price := calculate_price demoTable "claude-v3-sonnet" 0 0 "us-east-1" } ∧
    demoResponseEnd.usage.inputTokens = 10 ∧
    demoResponseEnd.usage.outputTokens = 20 ∧
    calculate_price demoTable "claude-v3-sonnet" 10 20 "us-east-1" ≠
      calculate_price demoTable "claude-v3-sonnet" 0 0 "us-east-1" := by
  refine ⟨rfl, rfl, rfl, ?_⟩
  norm_num [calculate_price, demoTable]

end BedrockChat
